import Mathlib

/-!
Verification of the segment query interface of
`internal/core/src/segcore/SegmentInterface.cpp` (milvus segcore).

The C++ source is shallowly embedded below: machine integers become `Nat`
(unsigned `Timestamp`, `size_t`, nonnegative sizes and row counts) or `Int`
(`int64_t` field ids and byte budgets), bitsets become `List Bool`, fallible
code (assertions, thrown `SegcoreError`s) returns `Option`/`Except`, and
external collaborators (the plan visitor, the bulk column accessor, the index
metadata) become explicit function parameters.  Definitions translated from
header files or collaborators that are not part of the analysed source carry a
doc comment starting with: Modelled from the spec.

The file is organised as: all definitions first, then all theorems.
-/

namespace milvus.segcore

/-! ## Visibility filter (`timestamp_filter`), lines 258-295 of the source

`BitsetType` is embedded as `List Bool`; `Timestamp` (`uint64_t`) as `Nat`.
The source reads `timestamps[cnt - 1]` where `cnt` is the `size_t` bitset
size: `cnt - 1` wraps to `2^64 - 1` when `cnt = 0`, so the guarded read is
embedded as an `Option`-returning lookup at index `(cnt + (2^64 - 1)) % 2^64`
and both entry points return `none` when that read is out of bounds. -/

/-- Modelled from the spec: helper searching the first set bit of a bitset
suffix; `findSet l` returns the index of the first `true` in `l`. -/
def findSet : List Bool → Option Nat
  | [] => none
  | b :: rest => if b then some 0 else (findSet rest).map (· + 1)

/-- Modelled from the spec: `bitset.find_next(offset)` of the dense form walks
the bitset's set bits — it yields the lowest index strictly greater than
`offset` holding a set bit, or `none` (the source's `npos`). -/
def find_next (bitset : List Bool) (offset : Nat) : Option Nat :=
  (findSet (bitset.drop (offset + 1))).map (fun j => offset + 1 + j)

/-- Modelled from the spec: `upper_bound(timestamps, 0, cnt, timestamp)`
(declared in `Utils.h`, outside the analysed source) binary-searches the
timestamp array for the first offset in `[lo, hi)` whose timestamp strictly
exceeds the snapshot, returning `hi` when there is none.  It is embedded as a
structurally recursive scan with the same result on sorted input. -/
def ub_go (timestamps : List Nat) (value lo : Nat) : Nat → Nat
  | 0 => lo
  | n + 1 => if value < timestamps.getD lo 0 then lo else ub_go timestamps value (lo + 1) n

/-- Modelled from the spec: entry point of the `upper_bound` helper. -/
def upper_bound (timestamps : List Nat) (lo hi value : Nat) : Nat :=
  ub_go timestamps value lo (hi - lo)

/-- The loop of the dense `timestamp_filter` (source lines 270-275): starting
at `pilot`, clear the current bit and hop to the next set bit until the end of
the bitset (or `npos`, embedded as `none`) is reached. -/
def clearLoop (bitset : List Bool) (offset cnt : Nat) : List Bool :=
  if _h : offset < cnt then
    match _hf : find_next (bitset.set offset false) offset with
    | none => bitset.set offset false
    | some next => clearLoop (bitset.set offset false) next cnt
  else bitset
termination_by cnt - offset
decreasing_by
  simp only [find_next, Option.map_eq_some'] at _hf
  obtain ⟨j, _, rfl⟩ := _hf
  omega

/-- Dense form of `SegmentInternalInterface::timestamp_filter` (source lines
258-276): clears candidate bits whose timestamp exceeds the snapshot.  Returns
`none` when the guard read `timestamps[cnt - 1]` is out of bounds. -/
def timestamp_filter_dense (timestamps : List Nat) (bitset : List Bool)
    (timestamp : Nat) : Option (List Bool) :=
  let cnt := bitset.length
  match timestamps.get? ((cnt + (2 ^ 64 - 1)) % 2 ^ 64) with
  | none => none
  | some lastTs =>
    if lastTs ≤ timestamp then
      -- no need to filter out anything.
      some bitset
    else
      let pilot := upper_bound timestamps 0 cnt timestamp
      -- offset bigger than pilot should be filtered out.
      some (clearLoop bitset pilot cnt)

/-- The point-query loop of the sparse `timestamp_filter` (source lines
290-294): for each candidate offset, set the filtered-out bit when its
timestamp exceeds the snapshot.  Returns `none` on an out-of-bounds timestamp
read. -/
def sparse_scan (timestamps : List Nat) (timestamp : Nat) :
    List Nat → List Bool → Option (List Bool)
  | [], bitset => some bitset
  | offset :: rest, bitset =>
    match timestamps.get? offset with
    | none => none
    | some t =>
      sparse_scan timestamps timestamp rest
        (if timestamp < t then bitset.set offset true else bitset)

/-- Sparse form of `SegmentInternalInterface::timestamp_filter` (source lines
278-295): marks filtered-out offsets in a bitset for an explicit offset list.
Returns `none` when the guard read `timestamps[cnt - 1]` is out of bounds. -/
def timestamp_filter_sparse (timestamps : List Nat) (bitset : List Bool)
    (offsets : List Nat) (timestamp : Nat) : Option (List Bool) :=
  let cnt := bitset.length
  match timestamps.get? ((cnt + (2 ^ 64 - 1)) % 2 ^ 64) with
  | none => none
  | some lastTs =>
    if lastTs ≤ timestamp then
      -- no need to filter out anything.
      some bitset
    else
      -- point query, faster than binary search.
      sparse_scan timestamps timestamp offsets bitset

/-! ## Schema, data types and segment bookkeeping state -/

/-- Data types of the schema system (`common/Types.h`, collaborator). -/
inductive DataType
  | None
  | Bool
  | Int8
  | Int16
  | Int32
  | Int64
  | Float
  | Double
  | String
  | VarChar
  | Array
  | Json
  | FloatVector
  | BinaryVector
  deriving DecidableEq

/-- Modelled from the spec: `datatype_is_variable` (from `common/Types.h`, not
part of the analysed source) — only variable-length fields (strings, arrays,
json) use the running-average table; fixed-width fields use their static
size. -/
def datatype_is_variable (t : DataType) : Bool :=
  match t with
  | DataType.String => true
  | DataType.VarChar => true
  | DataType.Array => true
  | DataType.Json => true
  | _ => false

/-- Modelled from the spec: `IsPrimaryKeyDataType` (collaborator) — the
primary key field must be an integer or string type (the source's assertion
message: INT64 or VARCHAR). -/
def IsPrimaryKeyDataType (t : DataType) : Bool :=
  t == DataType.Int64 || t == DataType.VarChar

/-- Modelled from the spec: id of the synthetic row-id system field. -/
def RowFieldID : Int := 0

/-- Modelled from the spec: id of the synthetic timestamp system field. -/
def TimestampFieldID : Int := 1

/-- Modelled from the spec: `SystemProperty::Instance().IsSystem(field_id)` —
system fields are the synthetic, non-stored row-id and timestamp fields. -/
def IsSystem (field_id : Int) : Bool :=
  field_id == RowFieldID || field_id == TimestampFieldID

/-- Kinds of system field (`SystemProperty::GetSystemFieldType`). -/
inductive SystemFieldType
  | RowId
  | Timestamp
  deriving DecidableEq

/-- Modelled from the spec: `SystemProperty::Instance().GetSystemFieldType`. -/
def GetSystemFieldType (field_id : Int) : SystemFieldType :=
  if field_id == RowFieldID then SystemFieldType.RowId else SystemFieldType.Timestamp

/-- Per-field schema metadata (`FieldMeta`, collaborator contract):
data type, element type for arrays, and static size for fixed-width types. -/
structure FieldMeta where
  data_type : DataType
  element_type : DataType
  size_of : Int

/-- Schema contract consumed by the source: primary-key designation and
field-id → metadata lookup. -/
structure Schema where
  primary_field_id : Option Int
  field_meta : Int → FieldMeta

/-- The error taxonomy of the source (`SegcoreError` codes and assertion
failures). -/
inductive SegcoreError
  | AssertFail (msg : String)
  | RetrieveError (msg : String)
  | DataTypeInvalid (msg : String)
  | FieldIDInvalid (msg : String)
  deriving DecidableEq

/-- Mutable bookkeeping of `SegmentInternalInterface` used by this file: the
per-row timestamp array and the variable-length field-size estimator table
`variable_fields_avg_size_` (field id → (observed row count, running average
byte size); `int64_t` values, nonnegative throughout, embedded as `Nat`). -/
structure SegmentState where
  timestamps : List Nat
  variable_fields_avg_size_ : List (Int × (Nat × Nat))
  schema : Schema

/-! ## Field-size estimator (source lines 203-256) -/

/-- `SegmentInternalInterface::get_field_avg_size` (source lines 203-230):
fixed constant for system fields, running average (0 before any observation)
for variable-length fields, static size otherwise. -/
def get_field_avg_size (seg : SegmentState) (field_id : Int) : Except SegcoreError Int :=
  if field_id < 0 then
    Except.error (SegcoreError.AssertFail
      ("invalid field id, should be greater than or equal to 0"))
  else if IsSystem field_id then
    if field_id == TimestampFieldID || field_id == RowFieldID then
      Except.ok 8
    else
      Except.error (SegcoreError.FieldIDInvalid ("unsupported system field id"))
  else
    let field_meta := seg.schema.field_meta field_id
    if datatype_is_variable field_meta.data_type then
      match List.lookup field_id seg.variable_fields_avg_size_ with
      | none => Except.ok 0
      | some info => Except.ok (info.2 : Int)
    else
      Except.ok field_meta.size_of

/-- Association-list update backing the `emplace`/`at` pair of
`set_field_avg_size`. -/
def insertEntry (field_id : Int) (v : Nat × Nat) :
    List (Int × (Nat × Nat)) → List (Int × (Nat × Nat))
  | [] => [(field_id, v)]
  | (g, w) :: rest =>
    if g == field_id then (field_id, v) :: rest else (g, w) :: insertEntry field_id v rest

/-- `SegmentInternalInterface::set_field_avg_size` (source lines 232-256):
for a variable-length field, fold a batch of `num_rows` rows holding
`field_size` total bytes into the running average with the integer-division
update `new_avg = (old_count * old_avg + field_size) / (old_count + num_rows)`
(the division is C++ `int64_t` division; on these nonnegative operands it
agrees with `Nat` division).  Asserts `num_rows > 0`; fixed-width fields are
left untouched. -/
def set_field_avg_size (seg : SegmentState) (field_id : Int)
    (num_rows field_size : Nat) : Except SegcoreError SegmentState :=
  if field_id < 0 then
    Except.error (SegcoreError.AssertFail
      ("invalid field id, should be greater than or equal to 0"))
  else
    let field_meta := seg.schema.field_meta field_id
    if datatype_is_variable field_meta.data_type then
      if 0 < num_rows then
        let field_info := (List.lookup field_id seg.variable_fields_avg_size_).getD (0, 0)
        let size := field_info.1 * field_info.2 + field_size
        let first := field_info.1 + num_rows
        Except.ok { seg with
          variable_fields_avg_size_ :=
            insertEntry field_id (first, size / first) seg.variable_fields_avg_size_ }
      else
        Except.error (SegcoreError.AssertFail
          ("The num rows of field data should be greater than 0"))
    else
      Except.ok seg

/-- Sequential application of `set_field_avg_size` update batches
`(num_rows, field_size)` to one field. -/
def apply_avg_batches (seg : SegmentState) (field_id : Int) :
    List (Nat × Nat) → Except SegcoreError SegmentState
  | [] => Except.ok seg
  | (n, s) :: rest =>
    match set_field_avg_size seg field_id n s with
    | Except.ok seg' => apply_avg_batches seg' field_id rest
    | Except.error e => Except.error e

/-- Total rows of a batch sequence. -/
def batchRows (batches : List (Nat × Nat)) : Nat := (batches.map Prod.fst).sum

/-- Total bytes of a batch sequence. -/
def batchBytes (batches : List (Nat × Nat)) : Nat := (batches.map Prod.snd).sum

/-- Checks that every incremental division performed by `set_field_avg_size`
along a batch sequence is exact, starting from estimator entry `fi`. -/
def avg_update_exact (fi : Nat × Nat) : List (Nat × Nat) → Bool
  | [] => true
  | (n, s) :: rest =>
    let size := fi.1 * fi.2 + s
    let first := fi.1 + n
    decide (size % first = 0) && avg_update_exact (first, size / first) rest

/-! ## SearchResult materialization (`FillPrimaryKeys`, source lines 25-48) -/

/-- Primary-key values (`PkType` variant: `int64_t` or `std::string`). -/
inductive PkValue
  | intVal (v : Int)
  | strVal (s : String)
  deriving DecidableEq

/-- The slice of `SearchResult` this file manipulates.  Distances are C++
floats; only their count is read here, so they are kept opaque. -/
structure SearchResult where
  seg_offsets_ : List Int
  distances_ : List Float
  primary_keys_ : List PkValue
  pk_type_ : DataType

/-- `SegmentInternalInterface::FillPrimaryKeys` (source lines 25-48).  The
bulk column accessor together with `ParsePksFromFieldData` (collaborators) are
abstracted as `bulk_pk`, returning the concrete primary-key data type and the
parsed values for the requested offsets; the container is resized to `size`
and filled positionally, exactly as the source's `resize` + parse does. -/
def FillPrimaryKeys (schema : Schema)
    (bulk_pk : Int → List Int → DataType × List PkValue)
    (plan : Option Unit) (results : SearchResult) : Except SegcoreError SearchResult :=
  if plan.isNone then
    Except.error (SegcoreError.AssertFail ("empty plan"))
  else
    let size := results.distances_.length
    if results.seg_offsets_.length ≠ size then
      Except.error (SegcoreError.AssertFail
        ("Size of result distances is not equal to size of ids"))
    else if results.primary_keys_.length ≠ 0 then
      Except.error (SegcoreError.AssertFail ("primary keys already filled"))
    else
      match schema.primary_field_id with
      | none =>
        Except.error (SegcoreError.AssertFail
          ("Cannot get primary key offset from schema"))
      | some pk_field_id =>
        if ¬ IsPrimaryKeyDataType ((schema.field_meta pk_field_id).data_type) then
          Except.error (SegcoreError.AssertFail
            ("Primary key field is not INT64 or VARCHAR type"))
        else
          let field_data := bulk_pk pk_field_id results.seg_offsets_
          Except.ok { results with
            pk_type_ := field_data.1,
            primary_keys_ :=
              (List.range size).map (fun i => field_data.2.getD i (PkValue.intVal 0)) }

/-! ## Metric-type consistency check (source lines 319-336) -/

/-- The part of `SearchInfo` read and written by `check_metric_type`. -/
structure SearchInfo where
  metric_type_ : String
  field_id_ : Int
  deriving DecidableEq

/-- `SegmentInternalInterface::check_metric_type` (source lines 319-336).  The
index metadata collaborator (`GetFieldIndexMeta(...).GeMetricType()`) is
abstracted as `index_metric`.  The source mutates the plan's `search_info_` in
place; the embedding returns the updated `SearchInfo` on success. -/
def check_metric_type (search_info : SearchInfo) (index_metric : Int → String) :
    Except SegcoreError SearchInfo :=
  let metric_str :=
    if search_info.metric_type_ = "" then index_metric search_info.field_id_
    else search_info.metric_type_
  if metric_str ≠ index_metric search_info.field_id_ then
    Except.error (SegcoreError.AssertFail
      ("metric type not match, expected " ++ index_metric search_info.field_id_
        ++ ", actual " ++ metric_str ++ "."))
  else
    Except.ok { search_info with metric_type_ := metric_str }

/-! ## Retrieve (source lines 82-177) and get_real_count (lines 179-201) -/

/-- Scalar payload of a proto `DataArray` (only the variants this file
touches). -/
inductive ScalarArray
  | long_data (data : List Int)
  | string_data (data : List String)
  deriving DecidableEq

/-- A proto `DataArray` column, reduced to the parts the source reads or
writes. -/
structure DataArray where
  field_id_ : Int
  type_ : DataType
  element_type_ : Option DataType
  scalars : Option ScalarArray
  deriving DecidableEq

/-- Accessor mirroring `col_data->scalars().long_data()` (an absent or
differently-typed payload reads as empty, as in proto getters). -/
def DataArray.longData (da : DataArray) : List Int :=
  match da.scalars with
  | some (ScalarArray.long_data xs) => xs
  | _ => []

/-- Accessor mirroring `col_data->scalars().string_data()`. -/
def DataArray.stringData (da : DataArray) : List String :=
  match da.scalars with
  | some (ScalarArray.string_data xs) => xs
  | _ => []

/-- The `segcore::RetrieveResult` handed back by the external plan visitor:
matched row offsets plus, for count plans, the synthetic count column. -/
structure RetrieveResultInternal where
  result_offsets_ : List Int
  field_data_ : List DataArray

/-- The retrieve plan node (`is_count_` flag). -/
structure RetrievePlanNode where
  is_count_ : Bool

/-- `query::RetrievePlan`: schema reference, plan node, requested output
field ids. -/
structure RetrievePlan where
  schema_ : Schema
  plan_node_ : RetrievePlanNode
  field_ids_ : List Int

/-- The proto `RetrieveResults` message assembled by `Retrieve`: offsets,
output columns, and the type-tagged primary-key identifiers. -/
structure RetrieveResultsProto where
  offset : List Int
  fields_data : List DataArray
  ids_int : List Int
  ids_str : List String
  deriving DecidableEq

/-- One step of the cost-budgeting loop (source lines 94-96):
`output_data_size += get_field_avg_size(field_id) * result_rows`. -/
def retrieve_size_step (seg : SegmentState) (result_rows : Nat) (acc : Int)
    (field_id : Int) : Except SegcoreError Int :=
  match get_field_avg_size seg field_id with
  | Except.ok avg => Except.ok (acc + avg * (result_rows : Int))
  | Except.error e => Except.error e

/-- One step of the materialization loop of `Retrieve` (source lines
116-175): synthesize system fields, bulk-fetch normal fields (stamping the
element type of array columns), and project the primary-key column into the
type-tagged identifier structure. -/
def retrieve_fill_field (schema : Schema)
    (bulk_subscript_field : Int → List Int → DataArray)
    (bulk_subscript_system : SystemFieldType → List Int → List Int)
    (offsets : List Int) (results : RetrieveResultsProto) (field_id : Int) :
    Except SegcoreError RetrieveResultsProto :=
  if IsSystem field_id then
    let system_type := GetSystemFieldType field_id
    let output := bulk_subscript_system system_type offsets
    let data_array : DataArray :=
      { field_id_ := field_id, type_ := DataType.Int64, element_type_ := none,
        scalars := some (ScalarArray.long_data output) }
    Except.ok { results with fields_data := results.fields_data ++ [data_array] }
  else
    let field_meta := schema.field_meta field_id
    let col := bulk_subscript_field field_id offsets
    let col :=
      if field_meta.data_type = DataType.Array then
        { col with element_type_ := some field_meta.element_type }
      else col
    let results' := { results with fields_data := results.fields_data ++ [col] }
    if schema.primary_field_id = some field_id then
      match field_meta.data_type with
      | DataType.Int64 =>
        Except.ok { results' with ids_int := results'.ids_int ++ col.longData }
      | DataType.VarChar =>
        Except.ok { results' with ids_str := results'.ids_str ++ col.stringData }
      | _ => Except.error (SegcoreError.DataTypeInvalid ("unsupported datatype"))
    else
      Except.ok results'

/-- The cost-budgeting for-loop of `Retrieve` (source lines 94-96), with the
early exit of a thrown assertion inside `get_field_avg_size` made explicit. -/
def retrieve_size_loop (seg : SegmentState) (result_rows : Nat) (acc : Int) :
    List Int → Except SegcoreError Int
  | [] => Except.ok acc
  | field_id :: rest =>
    match retrieve_size_step seg result_rows acc field_id with
    | Except.ok acc' => retrieve_size_loop seg result_rows acc' rest
    | Except.error e => Except.error e

/-- The materialization for-loop of `Retrieve` (source lines 116-175), with
the early exit of a thrown `PanicInfo` made explicit. -/
def retrieve_fill_loop (schema : Schema)
    (bulk_subscript_field : Int → List Int → DataArray)
    (bulk_subscript_system : SystemFieldType → List Int → List Int)
    (offsets : List Int) (results : RetrieveResultsProto) :
    List Int → Except SegcoreError RetrieveResultsProto
  | [] => Except.ok results
  | field_id :: rest =>
    match retrieve_fill_field schema bulk_subscript_field bulk_subscript_system
        offsets results field_id with
    | Except.ok results' =>
      retrieve_fill_loop schema bulk_subscript_field bulk_subscript_system
        offsets results' rest
    | Except.error e => Except.error e

/-- `SegmentInternalInterface::Retrieve` (source lines 82-177): run the
external visitor, pre-flight check the projected output size against
`limit_size`, take the count fast path, or materialize the requested columns.
The plan visitor and both bulk-subscript collaborators are explicit function
parameters. -/
def Retrieve (seg : SegmentState)
    (visitor : RetrievePlan → Nat → RetrieveResultInternal)
    (bulk_subscript_field : Int → List Int → DataArray)
    (bulk_subscript_system : SystemFieldType → List Int → List Int)
    (plan : RetrievePlan) (timestamp : Nat) (limit_size : Int) :
    Except SegcoreError RetrieveResultsProto :=
  let retrieve_results := visitor plan timestamp
  let result_rows := retrieve_results.result_offsets_.length
  match retrieve_size_loop seg result_rows 0 plan.field_ids_ with
  | Except.error e => Except.error e
  | Except.ok output_data_size =>
    if output_data_size > limit_size then
      Except.error (SegcoreError.RetrieveError ("query results exceed the limit size"))
    else if plan.plan_node_.is_count_ then
      match retrieve_results.field_data_ with
      | [fd] =>
        Except.ok { offset := [], fields_data := [fd], ids_int := [], ids_str := [] }
      | _ =>
        Except.error (SegcoreError.AssertFail ("count result should only have one column"))
    else
      retrieve_fill_loop plan.schema_ bulk_subscript_field bulk_subscript_system
        retrieve_results.result_offsets_
        { offset := retrieve_results.result_offsets_, fields_data := [],
          ids_int := [], ids_str := [] }
        plan.field_ids_

/-- The latest possible snapshot timestamp (`MAX_TIMESTAMP`, the largest
`uint64_t`). -/
def MAX_TIMESTAMP : Nat := 2 ^ 64 - 1

/-- The unbounded size budget passed by `get_real_count` (`INT64_MAX`). -/
def INT64_MAX : Int := 2 ^ 63 - 1

/-- Number of rows of the segment visible at a snapshot (timestamp at or
before the snapshot). -/
def visibleCount (timestamps : List Nat) (timestamp : Nat) : Nat :=
  timestamps.countP (fun t => decide (t ≤ timestamp))

/-- The synthetic one-row Int64 column carrying a count value. -/
def countColumn (v : Int) : DataArray :=
  { field_id_ := 0, type_ := DataType.Int64, element_type_ := none,
    scalars := some (ScalarArray.long_data [v]) }

/-- Modelled from the spec: the external `ExecPlanNodeVisitor` retrieve path
(not part of the analysed source).  For a count-only plan it returns a single
synthetic scalar column holding the count of visible rows; otherwise it
returns the visibility-filtered matched row offsets. -/
def spec_visitor (seg : SegmentState) : RetrievePlan → Nat → RetrieveResultInternal :=
  fun plan timestamp =>
    if plan.plan_node_.is_count_ then
      { result_offsets_ := [],
        field_data_ := [countColumn (visibleCount seg.timestamps timestamp : Int)] }
    else
      { result_offsets_ :=
          ((List.range seg.timestamps.length).filter
            (fun i => decide (seg.timestamps.getD i 0 ≤ timestamp))).map Int.ofNat,
        field_data_ := [] }

/-- The synthetic count-only plan built by `get_real_count` (source lines
188-190): fresh plan over the segment's schema, no requested fields,
`is_count_` set. -/
def count_plan (seg : SegmentState) : RetrievePlan :=
  { schema_ := seg.schema, plan_node_ := { is_count_ := true }, field_ids_ := [] }

/-- `SegmentInternalInterface::get_real_count` (source lines 179-201): invoke
`Retrieve` with the count-only plan, the latest possible snapshot and an
unbounded budget, then unwrap the single scalar of the single one-row
column. -/
def get_real_count (seg : SegmentState)
    (visitor : RetrievePlan → Nat → RetrieveResultInternal)
    (bulk_subscript_field : Int → List Int → DataArray)
    (bulk_subscript_system : SystemFieldType → List Int → List Int) :
    Except SegcoreError Int :=
  match Retrieve seg visitor bulk_subscript_field bulk_subscript_system
      (count_plan seg) MAX_TIMESTAMP INT64_MAX with
  | Except.error e => Except.error e
  | Except.ok res =>
    match res.fields_data with
    | [fd] =>
      match fd.scalars with
      | some (ScalarArray.long_data xs) =>
        match xs with
        | [v] => Except.ok v
        | _ => Except.error (SegcoreError.AssertFail
            ("count result should only have one row"))
      | some (ScalarArray.string_data _) =>
        Except.error (SegcoreError.AssertFail ("count result should match long data"))
      | none =>
        Except.error (SegcoreError.AssertFail ("count result should match scalar"))
    | _ =>
      Except.error (SegcoreError.AssertFail ("count result should only have one column"))

/-- The value `get_field_avg_size` yields when it does not fail (0 on the
failure branches, which are unreachable for nonnegative field ids). -/
def field_avg_size_val (seg : SegmentState) (field_id : Int) : Int :=
  match get_field_avg_size seg field_id with
  | Except.ok v => v
  | Except.error _ => 0

/-- The projected output size computed by the cost-budgeting loop: sum over
the requested fields of estimated average size times matched row count. -/
def projected_output_size (seg : SegmentState) (field_ids : List Int) (rows : Nat) : Int :=
  (field_ids.map (fun f => field_avg_size_val seg f * (rows : Int))).sum

/-! ## Concrete fixtures used by the witnesses -/

/-- A fixed-width Int64 field description. -/
def int64Meta : FieldMeta :=
  { data_type := DataType.Int64, element_type := DataType.None, size_of := 8 }

/-- A variable-length VarChar field description. -/
def varcharMeta : FieldMeta :=
  { data_type := DataType.VarChar, element_type := DataType.None, size_of := 0 }

/-- A schema whose fields are all VarChar, primary key designated at field
100. -/
def varcharSchema : Schema :=
  { primary_field_id := some 100, field_meta := fun _ => varcharMeta }

/-- A schema whose fields are all fixed-width Int64, no primary key. -/
def int64Schema : Schema :=
  { primary_field_id := none, field_meta := fun _ => int64Meta }

/-- A fresh segment over `varcharSchema` with the given timestamps and an
empty estimator table. -/
def freshVarcharSeg (ts : List Nat) : SegmentState :=
  { timestamps := ts, variable_fields_avg_size_ := [], schema := varcharSchema }

/-- A fresh segment over `int64Schema`. -/
def freshInt64Seg (ts : List Nat) : SegmentState :=
  { timestamps := ts, variable_fields_avg_size_ := [], schema := int64Schema }

/-- A visitor fixture returning two matched rows and no columns. -/
def twoRowVisitor : RetrievePlan → Nat → RetrieveResultInternal :=
  fun _ _ => { result_offsets_ := [0, 1], field_data_ := [] }

/-- A bulk-subscript fixture returning an empty Int64 column. -/
def emptyBulkField : Int → List Int → DataArray :=
  fun f _ =>
    { field_id_ := f, type_ := DataType.Int64, element_type_ := none,
      scalars := some (ScalarArray.long_data []) }

/-- A system bulk-subscript fixture returning no values. -/
def emptyBulkSystem : SystemFieldType → List Int → List Int := fun _ _ => []

/-- A primary-key bulk fixture parsing offsets themselves as Int64 keys. -/
def identityBulkPk : Int → List Int → DataType × List PkValue :=
  fun _ offsets => (DataType.Int64, offsets.map PkValue.intVal)

/-- A search result fixture with one row and an empty primary-key
container. -/
def oneRowResult : SearchResult :=
  { seg_offsets_ := [0], distances_ := [1.0], primary_keys_ := [], pk_type_ := DataType.None }

/-- A search result fixture whose primary-key container is already
populated. -/
def filledResult : SearchResult :=
  { seg_offsets_ := [0], distances_ := [1.0], primary_keys_ := [PkValue.intVal 5],
    pk_type_ := DataType.Int64 }

/-! ## Theorems: list index helpers -/

theorem getD_oob {α : Type _} (l : List α) (i : Nat) (d : α) (h : l.length ≤ i) :
    l.getD i d = d := by
  induction l generalizing i with
  | nil => cases i <;> rfl
  | cons x xs ih =>
    cases i with
    | zero => simp at h
    | succ j =>
      simp only [List.getD_cons_succ]
      exact ih j (by simpa using h)

theorem getD_eq_getElem {α : Type _} (l : List α) (i : Nat) (d : α) (h : i < l.length) :
    l.getD i d = l[i] := by
  induction l generalizing i with
  | nil => simp at h
  | cons x xs ih =>
    cases i with
    | zero => rfl
    | succ j =>
      simp only [List.getD_cons_succ, List.getElem_cons_succ]
      exact ih j (by simpa using h)

theorem get?_some_of_lt {α : Type _} (l : List α) (i : Nat) (d : α) (h : i < l.length) :
    l.get? i = some (l.getD i d) := by
  induction l generalizing i with
  | nil => simp at h
  | cons x xs ih =>
    cases i with
    | zero => rfl
    | succ j =>
      simp only [List.get?_cons_succ, List.getD_cons_succ]
      exact ih j (by simpa using h)

theorem get?_none_of_le {α : Type _} (l : List α) (i : Nat) (h : l.length ≤ i) :
    l.get? i = none := by
  induction l generalizing i with
  | nil => cases i <;> rfl
  | cons x xs ih =>
    cases i with
    | zero => simp at h
    | succ j =>
      simp only [List.get?_cons_succ]
      exact ih j (by simpa using h)

theorem get?_some_imp {α : Type _} (l : List α) (i : Nat) (x d : α)
    (h : l.get? i = some x) : i < l.length ∧ l.getD i d = x := by
  by_cases hi : i < l.length
  · refine ⟨hi, ?_⟩
    rw [get?_some_of_lt l i d hi] at h
    exact (Option.some.injEq _ _).mp h
  · rw [get?_none_of_le l i (Nat.le_of_not_lt hi)] at h
    cases h

theorem getD_set {α : Type _} (l : List α) (i j : Nat) (a d : α) :
    (l.set i a).getD j d = if i = j ∧ j < l.length then a else l.getD j d := by
  induction l generalizing i j with
  | nil => simp
  | cons x xs ih =>
    cases i with
    | zero =>
      cases j with
      | zero => simp
      | succ j' => simp
    | succ i' =>
      cases j with
      | zero => simp
      | succ j' =>
        simp only [List.set_cons_succ, List.getD_cons_succ, List.length_cons, ih i' j']
        by_cases hij : i' = j'
        · subst hij
          by_cases hlt : i' < xs.length
          · rw [if_pos ⟨rfl, hlt⟩, if_pos ⟨rfl, by omega⟩]
          · rw [if_neg (by omega), if_neg (by omega)]
        · rw [if_neg (by omega), if_neg (by omega)]

theorem getD_drop {α : Type _} (l : List α) (k m : Nat) (d : α) :
    (l.drop k).getD m d = l.getD (k + m) d := by
  induction l generalizing k with
  | nil => simp
  | cons x xs ih =>
    cases k with
    | zero => simp
    | succ k' =>
      simp only [List.drop_succ_cons, ih k']
      have h : k' + 1 + m = (k' + m) + 1 := by omega
      rw [h, List.getD_cons_succ]

theorem getD_replicate_false (n i : Nat) :
    (List.replicate n false).getD i false = false := by
  induction n generalizing i with
  | zero => cases i <;> rfl
  | succ n ih =>
    cases i with
    | zero => rfl
    | succ j => rw [List.replicate_succ, List.getD_cons_succ]; exact ih j

theorem sorted_getD_le (T : List Nat) (h : T.Pairwise (· ≤ ·)) (i j : Nat)
    (hij : i ≤ j) (hj : j < T.length) : T.getD i 0 ≤ T.getD j 0 := by
  rcases Nat.eq_or_lt_of_le hij with rfl | hlt
  · exact Nat.le_refl _
  · have hi : i < T.length := Nat.lt_trans hlt hj
    rw [getD_eq_getElem T i 0 hi, getD_eq_getElem T j 0 hj]
    exact List.pairwise_iff_getElem.mp h i j hi hj hlt

/-! ## Theorems: the bit-walking loop of the dense filter -/

theorem findSet_some (l : List Bool) (j : Nat) (h : findSet l = some j) :
    j < l.length ∧ l.getD j false = true ∧ ∀ m, m < j → l.getD m false = false := by
  induction l generalizing j with
  | nil => cases h
  | cons b rest ih =>
    by_cases hb : b = true
    · subst hb
      simp only [findSet, if_true] at h
      cases h
      exact ⟨by simp, rfl, fun m hm => by omega⟩
    · have hb' : b = false := by cases b <;> simp_all
      subst hb'
      simp only [findSet, Bool.false_eq_true, if_false, Option.map_eq_some'] at h
      obtain ⟨j', hj', rfl⟩ := h
      obtain ⟨h1, h2, h3⟩ := ih j' hj'
      refine ⟨by simpa using Nat.succ_lt_succ h1, by simpa using h2, ?_⟩
      intro m hm
      cases m with
      | zero => rfl
      | succ m' =>
        simp only [List.getD_cons_succ]
        exact h3 m' (by omega)

theorem findSet_none (l : List Bool) (h : findSet l = none) :
    ∀ m, m < l.length → l.getD m false = false := by
  induction l with
  | nil => intro m hm; simp at hm
  | cons b rest ih =>
    by_cases hb : b = true
    · subst hb; simp [findSet] at h
    · have hb' : b = false := by cases b <;> simp_all
      subst hb'
      simp only [findSet, Bool.false_eq_true, if_false, Option.map_eq_none'] at h
      intro m hm
      cases m with
      | zero => rfl
      | succ m' =>
        simp only [List.getD_cons_succ]
        exact ih h m' (by simpa using hm)

theorem find_next_some (bitset : List Bool) (offset j : Nat)
    (h : find_next bitset offset = some j) :
    offset < j ∧ j < bitset.length ∧ bitset.getD j false = true ∧
      ∀ m, offset < m → m < j → bitset.getD m false = false := by
  simp only [find_next, Option.map_eq_some'] at h
  obtain ⟨j', hj', rfl⟩ := h
  obtain ⟨h1, h2, h3⟩ := findSet_some _ _ hj'
  rw [List.length_drop] at h1
  rw [getD_drop] at h2
  refine ⟨by omega, by omega, h2, ?_⟩
  intro m hm1 hm2
  have hmd : m = (offset + 1) + (m - (offset + 1)) := by omega
  rw [hmd, ← getD_drop]
  exact h3 _ (by omega)

theorem find_next_none (bitset : List Bool) (offset : Nat)
    (h : find_next bitset offset = none) :
    ∀ m, offset < m → m < bitset.length → bitset.getD m false = false := by
  simp only [find_next, Option.map_eq_none'] at h
  intro m hm1 hm2
  have hmd : m = (offset + 1) + (m - (offset + 1)) := by omega
  rw [hmd, ← getD_drop]
  exact findSet_none _ h _ (by rw [List.length_drop]; omega)

theorem clearLoop_getD_aux (n : Nat) :
    ∀ (bitset : List Bool) (offset i : Nat), bitset.length - offset ≤ n →
      (clearLoop bitset offset bitset.length).getD i false =
        (bitset.getD i false && decide (i < offset)) := by
  induction n with
  | zero =>
    intro bs off i hn
    rw [clearLoop]
    have hoc : ¬ off < bs.length := by omega
    rw [dif_neg hoc]
    by_cases hio : i < off
    · simp [hio]
    · have hbl : bs.length ≤ i := by omega
      rw [getD_oob _ _ _ hbl]
      simp [hio]
  | succ n ih =>
    intro bs off i hn
    rw [clearLoop]
    by_cases hoc : off < bs.length
    · rw [dif_pos hoc]
      split
      · rename_i hf
        rw [getD_set]
        by_cases hio : i = off
        · subst hio
          rw [if_pos ⟨rfl, hoc⟩]
          simp
        · rw [if_neg (by omega)]
          by_cases hlt : i < off
          · simp [hlt]
          · have hgt : off < i := by omega
            simp only [decide_eq_false (by omega : ¬ i < off), Bool.and_false]
            by_cases hil : i < bs.length
            · have hz := find_next_none _ _ hf i hgt (by rwa [List.length_set])
              rwa [getD_set, if_neg (by omega)] at hz
            · exact getD_oob _ _ _ (by omega)
      · rename_i next hf
        obtain ⟨hon, hnl, _, hmin⟩ := find_next_some _ _ _ hf
        rw [List.length_set] at hnl
        have hlen : (bs.set off false).length = bs.length := by simp
        rw [← hlen]
        rw [ih (bs.set off false) next i (by rw [hlen]; omega)]
        by_cases hio : i < off
        · rw [getD_set, if_neg (by omega)]
          simp [hio, (by omega : i < next)]
        · by_cases hieq : i = off
          · subst hieq
            rw [getD_set, if_pos ⟨rfl, hoc⟩]
            simp
          · have hgt : off < i := by omega
            simp only [decide_eq_false (by omega : ¬ i < off), Bool.and_false]
            by_cases hin : i < next
            · have hz := hmin i hgt hin
              rw [hz]
              simp
            · rw [decide_eq_false (by omega : ¬ i < next), Bool.and_false]
    · rw [dif_neg hoc]
      by_cases hio : i < off
      · simp [hio]
      · have hbl : bs.length ≤ i := by omega
        rw [getD_oob _ _ _ hbl]
        simp [hio]

theorem clearLoop_getD (bitset : List Bool) (offset i : Nat) :
    (clearLoop bitset offset bitset.length).getD i false =
      (bitset.getD i false && decide (i < offset)) :=
  clearLoop_getD_aux (bitset.length - offset) bitset offset i (Nat.le_refl _)

theorem clearLoop_length_aux (n : Nat) :
    ∀ (bitset : List Bool) (offset cnt : Nat), cnt - offset ≤ n →
      (clearLoop bitset offset cnt).length = bitset.length := by
  induction n with
  | zero =>
    intro bs off cnt hn
    rw [clearLoop, dif_neg (by omega)]
  | succ n ih =>
    intro bs off cnt hn
    rw [clearLoop]
    by_cases hoc : off < cnt
    · rw [dif_pos hoc]
      split
      · simp
      · rename_i next hf
        obtain ⟨hon, _, _, _⟩ := find_next_some _ _ _ hf
        rw [ih (bs.set off false) next cnt (by omega)]
        simp
    · rw [dif_neg hoc]

theorem clearLoop_length (bitset : List Bool) (offset cnt : Nat) :
    (clearLoop bitset offset cnt).length = bitset.length :=
  clearLoop_length_aux (cnt - offset) bitset offset cnt (Nat.le_refl _)

/-! ## Theorems: the upper_bound scan -/

theorem ub_go_le (T : List Nat) (v : Nat) :
    ∀ (n lo : Nat), lo ≤ ub_go T v lo n ∧ ub_go T v lo n ≤ lo + n := by
  intro n
  induction n with
  | zero => intro lo; simp [ub_go]
  | succ n ih =>
    intro lo
    rw [ub_go]
    split
    · omega
    · have := ih (lo + 1)
      omega

theorem ub_go_below (T : List Nat) (v : Nat) :
    ∀ (n lo i : Nat), lo ≤ i → i < ub_go T v lo n → T.getD i 0 ≤ v := by
  intro n
  induction n with
  | zero => intro lo i h1 h2; rw [ub_go] at h2; omega
  | succ n ih =>
    intro lo i h1 h2
    rw [ub_go] at h2
    split at h2
    · omega
    · rename_i hv
      rcases Nat.eq_or_lt_of_le h1 with rfl | hlt
      · have hv' : ¬ v < T.getD lo 0 := hv
        omega
      · exact ih (lo + 1) i hlt h2

theorem ub_go_at (T : List Nat) (v : Nat) :
    ∀ (n lo : Nat), ub_go T v lo n < lo + n → v < T.getD (ub_go T v lo n) 0 := by
  intro n
  induction n with
  | zero => intro lo h; rw [ub_go] at h; omega
  | succ n ih =>
    intro lo h
    rw [ub_go] at h ⊢
    split at h
    · rename_i hv
      rw [if_pos hv]
      exact hv
    · rename_i hv
      rw [if_neg hv]
      exact ih (lo + 1) (by omega)

theorem upper_bound_spec (T : List Nat) (cnt s : Nat)
    (hs : T.Pairwise (· ≤ ·)) (hcnt : cnt ≤ T.length) (i : Nat) (hi : i < cnt) :
    i < upper_bound T 0 cnt s ↔ T.getD i 0 ≤ s := by
  have hub : upper_bound T 0 cnt s = ub_go T s 0 cnt := by
    rw [upper_bound, Nat.sub_zero]
  rw [hub]
  constructor
  · intro h
    exact ub_go_below T s cnt 0 i (Nat.zero_le _) h
  · intro h
    by_contra hcon
    have hle : ub_go T s 0 cnt ≤ i := by omega
    have hat : s < T.getD (ub_go T s 0 cnt) 0 :=
      ub_go_at T s cnt 0 (by omega)
    have hmono : T.getD (ub_go T s 0 cnt) 0 ≤ T.getD i 0 :=
      sorted_getD_le T hs _ i hle (by omega)
    omega

/-! ## Theorems: characterization of both timestamp_filter forms -/

theorem dense_spec (T : List Nat) (bitset : List Bool) (s : Nat)
    (hsorted : T.Pairwise (· ≤ ·)) (hpos : 0 < bitset.length)
    (hlen : bitset.length ≤ T.length) (hsz : bitset.length ≤ 2 ^ 64) :
    ∃ out, timestamp_filter_dense T bitset s = some out ∧
      out.length = bitset.length ∧
      ∀ i, i < bitset.length →
        out.getD i false = (bitset.getD i false && decide (T.getD i 0 ≤ s)) := by
  have h264 : (2 : Nat) ^ 64 = 18446744073709551616 := by norm_num
  have hidx : (bitset.length + (2 ^ 64 - 1)) % 2 ^ 64 = bitset.length - 1 := by
    rw [h264] at hsz ⊢
    omega
  have hidxlt : bitset.length - 1 < T.length := by omega
  have hget : T.get? ((bitset.length + (2 ^ 64 - 1)) % 2 ^ 64) =
      some (T.getD (bitset.length - 1) 0) := by
    rw [hidx]
    exact get?_some_of_lt T _ 0 hidxlt
  simp only [timestamp_filter_dense, hget]
  by_cases hts : T.getD (bitset.length - 1) 0 ≤ s
  · rw [if_pos hts]
    refine ⟨bitset, rfl, rfl, ?_⟩
    intro i hi
    have hle : T.getD i 0 ≤ s :=
      Nat.le_trans (sorted_getD_le T hsorted i (bitset.length - 1) (by omega) hidxlt) hts
    rw [decide_eq_true hle, Bool.and_true]
  · rw [if_neg hts]
    refine ⟨_, rfl, clearLoop_length _ _ _, ?_⟩
    intro i hi
    rw [clearLoop_getD]
    have hiff : i < upper_bound T 0 bitset.length s ↔ T.getD i 0 ≤ s :=
      upper_bound_spec T bitset.length s hsorted hlen i hi
    rw [decide_eq_decide.mpr hiff]

theorem sparse_scan_spec (T : List Nat) (s : Nat) :
    ∀ (offsets : List Nat) (bitset : List Bool),
      (∀ o ∈ offsets, o < bitset.length) → bitset.length ≤ T.length →
      ∃ out, sparse_scan T s offsets bitset = some out ∧
        out.length = bitset.length ∧
        ∀ i, out.getD i false =
          (bitset.getD i false || (decide (i ∈ offsets) && decide (s < T.getD i 0))) := by
  intro offsets
  induction offsets with
  | nil =>
    intro bs _ _
    exact ⟨bs, rfl, rfl, fun i => by simp⟩
  | cons o rest ih =>
    intro bs hoff hlen
    have ho : o < bs.length := hoff o (List.mem_cons_self o rest)
    have hget : T.get? o = some (T.getD o 0) := get?_some_of_lt T o 0 (by omega)
    have hbs1len : (if s < T.getD o 0 then bs.set o true else bs).length = bs.length := by
      split <;> simp
    have hoff1 : ∀ x ∈ rest, x < (if s < T.getD o 0 then bs.set o true else bs).length := by
      intro x hx
      rw [hbs1len]
      exact hoff x (List.mem_cons_of_mem o hx)
    obtain ⟨out, hout, houtlen, hspec⟩ :=
      ih (if s < T.getD o 0 then bs.set o true else bs) hoff1 (by rw [hbs1len]; exact hlen)
    rw [sparse_scan, hget]
    refine ⟨out, hout, by rw [houtlen, hbs1len], ?_⟩
    intro i
    rw [hspec i]
    by_cases hio : i = o
    · subst hio
      by_cases hst : s < T.getD i 0
      · rw [if_pos hst, getD_set, if_pos ⟨rfl, ho⟩]
        rw [Bool.true_or, decide_eq_true (List.mem_cons_self i rest), decide_eq_true hst]
        rw [Bool.and_self, Bool.or_true]
      · rw [if_neg hst, decide_eq_false hst, Bool.and_false, Bool.or_false,
          Bool.and_false, Bool.or_false]
    · have hb1 : (if s < T.getD o 0 then bs.set o true else bs).getD i false =
          bs.getD i false := by
        split
        · rw [getD_set, if_neg (by omega)]
        · rfl
      rw [hb1]
      have hmem : (i ∈ o :: rest) ↔ (i ∈ rest) := by
        simp [List.mem_cons, hio]
      rw [decide_eq_decide.mpr hmem]

theorem sparse_spec (T : List Nat) (bitset : List Bool) (offsets : List Nat) (s : Nat)
    (hsorted : T.Pairwise (· ≤ ·)) (hpos : 0 < bitset.length)
    (hlen : bitset.length ≤ T.length) (hsz : bitset.length ≤ 2 ^ 64)
    (hoff : ∀ o ∈ offsets, o < bitset.length) :
    ∃ out, timestamp_filter_sparse T bitset offsets s = some out ∧
      out.length = bitset.length ∧
      ∀ i, i < bitset.length →
        out.getD i false =
          (bitset.getD i false || (decide (i ∈ offsets) && decide (s < T.getD i 0))) := by
  have h264 : (2 : Nat) ^ 64 = 18446744073709551616 := by norm_num
  have hidx : (bitset.length + (2 ^ 64 - 1)) % 2 ^ 64 = bitset.length - 1 := by
    rw [h264] at hsz ⊢
    omega
  have hidxlt : bitset.length - 1 < T.length := by omega
  have hget : T.get? ((bitset.length + (2 ^ 64 - 1)) % 2 ^ 64) =
      some (T.getD (bitset.length - 1) 0) := by
    rw [hidx]
    exact get?_some_of_lt T _ 0 hidxlt
  simp only [timestamp_filter_sparse, hget]
  by_cases hts : T.getD (bitset.length - 1) 0 ≤ s
  · rw [if_pos hts]
    refine ⟨bitset, rfl, rfl, ?_⟩
    intro i hi
    have hle : T.getD i 0 ≤ s :=
      Nat.le_trans (sorted_getD_le T hsorted i (bitset.length - 1) (by omega) hidxlt) hts
    rw [decide_eq_false (by omega : ¬ s < T.getD i 0), Bool.and_false, Bool.or_false]
  · rw [if_neg hts]
    obtain ⟨out, hout, houtlen, hspec⟩ := sparse_scan_spec T s offsets bitset hoff hlen
    exact ⟨out, hout, houtlen, fun i _ => hspec i⟩

/-! ## Claims about the visibility filter -/

/-- C1: for every non-decreasing timestamp array, candidate bitset and
snapshot, the dense `timestamp_filter` leaves a bit set at offset `i` iff it
was set before the call and `timestamps[i] ≤ snapshot` — it binary-searches
the first offset whose timestamp exceeds the snapshot (`pilot`) and clears
every currently-set bit from `pilot` onward, leaving all bits below `pilot`
untouched. -/
theorem claim_C1 (T : List Nat) (bitset : List Bool) (s : Nat)
    (hsorted : T.Pairwise (· ≤ ·)) (hpos : 0 < bitset.length)
    (hlen : bitset.length ≤ T.length) (hsz : bitset.length ≤ 2 ^ 64) :
    ∃ out, timestamp_filter_dense T bitset s = some out ∧
      out.length = bitset.length ∧
      ∀ i, i < bitset.length →
        (out.getD i false = true ↔ (bitset.getD i false = true ∧ T.getD i 0 ≤ s)) := by
  obtain ⟨out, h1, h2, h3⟩ := dense_spec T bitset s hsorted hpos hlen hsz
  refine ⟨out, h1, h2, ?_⟩
  intro i hi
  rw [h3 i hi]
  simp

theorem claim_C1_witness :
    ∃ out, timestamp_filter_dense [10, 20, 30] [true, true, true] 20 = some out ∧
      out.length = [true, true, true].length ∧
      ∀ i, i < [true, true, true].length →
        (out.getD i false = true ↔
          ([true, true, true].getD i false = true ∧ [10, 20, 30].getD i 0 ≤ 20)) :=
  claim_C1 [10, 20, 30] [true, true, true] 20 (by decide) (by decide) (by decide) (by decide)

/-- C2: for every non-decreasing timestamp array, snapshot and shared
candidate set, the dense form (clearing candidate bits) and the sparse form
(setting filtered-out bits over an explicit offset list) agree on the
visibility of every offset of the candidate set. -/
theorem claim_C2 (T : List Nat) (s : Nat) (offsets : List Nat) (candidates : List Bool)
    (hsorted : T.Pairwise (· ≤ ·)) (hpos : 0 < candidates.length)
    (hlen : candidates.length ≤ T.length) (hsz : candidates.length ≤ 2 ^ 64)
    (hoff : ∀ o ∈ offsets, o < candidates.length)
    (hcand : ∀ o ∈ offsets, candidates.getD o false = true) :
    ∃ dense_out filtered_out,
      timestamp_filter_dense T candidates s = some dense_out ∧
      timestamp_filter_sparse T (List.replicate candidates.length false) offsets s =
        some filtered_out ∧
      ∀ o ∈ offsets,
        (dense_out.getD o false = true ↔ filtered_out.getD o false = false) := by
  obtain ⟨d, hd, hdlen, hdspec⟩ := dense_spec T candidates s hsorted hpos hlen hsz
  have hrep : (List.replicate candidates.length false).length = candidates.length := by
    simp
  obtain ⟨sp, hsp, hsplen, hspspec⟩ :=
    sparse_spec T (List.replicate candidates.length false) offsets s hsorted
      (by rw [hrep]; exact hpos) (by rw [hrep]; exact hlen) (by rw [hrep]; exact hsz)
      (by rw [hrep]; exact hoff)
  refine ⟨d, sp, hd, hsp, ?_⟩
  intro o ho
  have holt : o < candidates.length := hoff o ho
  rw [hdspec o holt, hspspec o (by rw [hrep]; exact holt)]
  rw [hcand o ho, getD_replicate_false, decide_eq_true ho]
  simp only [Bool.true_and, Bool.false_or]
  by_cases hts : T.getD o 0 ≤ s
  · rw [decide_eq_true hts, decide_eq_false (by omega : ¬ s < T.getD o 0)]
    simp
  · rw [decide_eq_false hts, decide_eq_true (by omega : s < T.getD o 0)]
    simp

theorem claim_C2_witness :
    ∃ dense_out filtered_out,
      timestamp_filter_dense [10, 20, 30] [true, true, true] 20 = some dense_out ∧
      timestamp_filter_sparse [10, 20, 30]
        (List.replicate [true, true, true].length false) [0, 1, 2] 20 =
        some filtered_out ∧
      ∀ o ∈ [0, 1, 2],
        (dense_out.getD o false = true ↔ filtered_out.getD o false = false) :=
  claim_C2 [10, 20, 30] 20 [0, 1, 2] [true, true, true] (by decide) (by decide)
    (by decide) (by decide) (by decide) (by decide)

/-- C7: whenever every timestamp of the array is at or below the snapshot (so
in particular the last one is), both `timestamp_filter` forms take the fast
exit and return the bitset with every bit unchanged. -/
theorem claim_C7 (T : List Nat) (bitset : List Bool) (offsets : List Nat) (s : Nat)
    (hpos : 0 < bitset.length) (hlen : bitset.length ≤ T.length)
    (hsz : bitset.length ≤ 2 ^ 64) (hmax : ∀ t ∈ T, t ≤ s) :
    timestamp_filter_dense T bitset s = some bitset ∧
      timestamp_filter_sparse T bitset offsets s = some bitset := by
  have h264 : (2 : Nat) ^ 64 = 18446744073709551616 := by norm_num
  have hidx : (bitset.length + (2 ^ 64 - 1)) % 2 ^ 64 = bitset.length - 1 := by
    rw [h264] at hsz ⊢
    omega
  have hidxlt : bitset.length - 1 < T.length := by omega
  have hget : T.get? ((bitset.length + (2 ^ 64 - 1)) % 2 ^ 64) =
      some (T.getD (bitset.length - 1) 0) := by
    rw [hidx]
    exact get?_some_of_lt T _ 0 hidxlt
  have hts : T.getD (bitset.length - 1) 0 ≤ s := by
    apply hmax
    rw [getD_eq_getElem T _ 0 hidxlt]
    exact List.getElem_mem hidxlt
  constructor
  · simp only [timestamp_filter_dense, hget]
    rw [if_pos hts]
  · simp only [timestamp_filter_sparse, hget]
    rw [if_pos hts]

theorem claim_C7_witness :
    timestamp_filter_dense [10, 20, 30] [true, false, true] 30 = some [true, false, true] ∧
      timestamp_filter_sparse [10, 20, 30] [true, false, true] [2] 30 =
        some [true, false, true] :=
  claim_C7 [10, 20, 30] [true, false, true] [2] 30 (by decide) (by decide) (by decide)
    (by decide)

/-- C9: both `timestamp_filter` forms unconditionally read
`timestamps[cnt - 1]` for `cnt` the bitset size, so they presuppose a
non-empty bitset and a timestamp array with at least `cnt` entries; in the
total embedding the guard lookup yields `none` (and the filter returns
`none`) when the bitset is empty or longer than the timestamp array. -/
theorem claim_C9 (T : List Nat) (bitset : List Bool) (offsets : List Nat) (s : Nat)
    (hT : T.length < 2 ^ 64) (hbs : bitset.length ≤ 2 ^ 64)
    (hshort : bitset.length = 0 ∨ T.length < bitset.length) :
    timestamp_filter_dense T bitset s = none ∧
      timestamp_filter_sparse T bitset offsets s = none := by
  have h264 : (2 : Nat) ^ 64 = 18446744073709551616 := by norm_num
  have hidx : T.length ≤ (bitset.length + (2 ^ 64 - 1)) % 2 ^ 64 := by
    rcases hshort with h0 | hlt
    · rw [h0]
      rw [h264] at hT ⊢
      omega
    · rw [h264] at hT hbs ⊢
      omega
  have hget : T.get? ((bitset.length + (2 ^ 64 - 1)) % 2 ^ 64) = none :=
    get?_none_of_le T _ hidx
  constructor
  · simp only [timestamp_filter_dense, hget]
  · simp only [timestamp_filter_sparse, hget]

theorem claim_C9_witness :
    timestamp_filter_dense [5] [] 0 = none ∧ timestamp_filter_sparse [5] [] [] 0 = none :=
  claim_C9 [5] [] [] 0 (by decide) (by decide) (Or.inl (by decide))

/-! ## Theorems: the field-size estimator -/

theorem lookup_insertEntry (f : Int) (v : Nat × Nat) (l : List (Int × (Nat × Nat))) :
    List.lookup f (insertEntry f v l) = some v := by
  induction l with
  | nil => simp [insertEntry, List.lookup]
  | cons p rest ih =>
    obtain ⟨g, w⟩ := p
    by_cases hg : g = f
    · subst hg
      simp [insertEntry, List.lookup]
    · have hbeq : (g == f) = false := by simp [hg]
      have hbeq2 : (f == g) = false := by simp [Ne.symm hg]
      simp [insertEntry, hbeq, List.lookup, hbeq2, ih]

theorem apply_avg_batches_spec :
    ∀ (batches : List (Nat × Nat)) (seg : SegmentState) (f : Int) (c a : Nat),
      ¬ f < 0 →
      datatype_is_variable (seg.schema.field_meta f).data_type = true →
      (∀ b ∈ batches, 0 < b.1) →
      (List.lookup f seg.variable_fields_avg_size_).getD (0, 0) = (c, a) →
      avg_update_exact (c, a) batches = true →
      ∃ seg' A,
        apply_avg_batches seg f batches = Except.ok seg' ∧
        (List.lookup f seg'.variable_fields_avg_size_).getD (0, 0) =
          (c + batchRows batches, A) ∧
        A * (c + batchRows batches) = c * a + batchBytes batches := by
  intro batches
  induction batches with
  | nil =>
    intro seg f c a _ _ _ hlookup _
    refine ⟨seg, a, rfl, ?_, ?_⟩
    · rw [hlookup]
      simp [batchRows]
    · simp [batchRows, batchBytes]
      exact Nat.mul_comm a c
  | cons b rest ih =>
    obtain ⟨n, s⟩ := b
    intro seg f c a hf hvar hb hlookup hexact
    have hn : 0 < n := hb (n, s) (List.mem_cons_self _ _)
    simp only [avg_update_exact, Bool.and_eq_true, decide_eq_true_eq] at hexact
    obtain ⟨hmod, hrest⟩ := hexact
    have hset : set_field_avg_size seg f n s =
        Except.ok { seg with variable_fields_avg_size_ := insertEntry f (c + n, (c * a + s) / (c + n)) seg.variable_fields_avg_size_ } := by
      simp only [set_field_avg_size]
      rw [if_neg hf, if_pos hvar, if_pos hn, hlookup]
    have hlookup' :
        (List.lookup f (insertEntry f (c + n, (c * a + s) / (c + n))
            seg.variable_fields_avg_size_)).getD (0, 0) =
          (c + n, (c * a + s) / (c + n)) := by
      rw [lookup_insertEntry]
      rfl
    obtain ⟨seg', A, h1, h2, h3⟩ :=
      ih ({ seg with variable_fields_avg_size_ := insertEntry f (c + n, (c * a + s) / (c + n)) seg.variable_fields_avg_size_ })
        f (c + n) ((c * a + s) / (c + n)) hf hvar
        (fun x hx => hb x (List.mem_cons_of_mem _ hx)) hlookup' hrest
    have hdvd : (c + n) ∣ (c * a + s) := Nat.dvd_of_mod_eq_zero hmod
    have hcancel : (c + n) * ((c * a + s) / (c + n)) = c * a + s :=
      Nat.mul_div_cancel' hdvd
    have hrows : c + batchRows ((n, s) :: rest) = (c + n) + batchRows rest := by
      simp [batchRows]
      omega
    have hbytes : batchBytes ((n, s) :: rest) = s + batchBytes rest := by
      simp [batchBytes]
    refine ⟨seg', A, ?_, ?_, ?_⟩
    · simp only [apply_avg_batches, hset]
      exact h1
    · rw [hrows]
      exact h2
    · rw [hrows, h3, hcancel, hbytes]
      omega

/-- C5 counterexample: with the source's integer division, applying the
batches (2 rows, 3 bytes) then (1 row, 0 bytes) to a fresh variable-length
field stores the average 0, while the claimed value (3 + 0) / (2 + 1)
equals 1 — the incremental update is not associative over batch splits. -/
theorem claim_C5_cex :
    apply_avg_batches (freshVarcharSeg []) 100 [(2, 3), (1, 0)] =
      Except.ok { freshVarcharSeg [] with variable_fields_avg_size_ := [(100, (3, 0))] } ∧
    (3 + 0) / (2 + 1) = 1 := by
  constructor
  · rfl
  · rfl

/-- C5 (amended): the stored running average after batches `(n1, s1), ...`
with every `ni > 0` equals `(Σ si) / (Σ ni)` provided every incremental
integer division performed by `set_field_avg_size` is exact; in general the
`int64_t` division makes the stored average depend on how the rows are split
into batches (see the counterexample). -/
theorem claim_C5 (seg : SegmentState) (f : Int) (batches : List (Nat × Nat))
    (hf : ¬ f < 0)
    (hvar : datatype_is_variable (seg.schema.field_meta f).data_type = true)
    (hfresh : List.lookup f seg.variable_fields_avg_size_ = none)
    (hne : batches ≠ [])
    (hposb : ∀ b ∈ batches, 0 < b.1)
    (hexact : avg_update_exact (0, 0) batches = true) :
    ∃ seg', apply_avg_batches seg f batches = Except.ok seg' ∧
      (List.lookup f seg'.variable_fields_avg_size_).getD (0, 0) =
        (batchRows batches, batchBytes batches / batchRows batches) := by
  have hlookup : (List.lookup f seg.variable_fields_avg_size_).getD (0, 0) = (0, 0) := by
    rw [hfresh]
    rfl
  obtain ⟨seg', A, h1, h2, h3⟩ :=
    apply_avg_batches_spec batches seg f 0 0 hf hvar hposb hlookup hexact
  have hR : 0 < batchRows batches := by
    cases batches with
    | nil => exact absurd rfl hne
    | cons b rest =>
      have hb := hposb b (List.mem_cons_self _ _)
      simp [batchRows]
      omega
  have hAB : A * batchRows batches = batchBytes batches := by
    have h3' := h3
    simp only [Nat.zero_add, Nat.zero_mul] at h3'
    omega
  have hdiv : batchBytes batches / batchRows batches = A := by
    rw [← hAB]
    exact Nat.mul_div_cancel A hR
  refine ⟨seg', h1, ?_⟩
  rw [h2, hdiv]
  simp

theorem claim_C5_witness :
    ∃ seg', apply_avg_batches (freshVarcharSeg []) 100 [(2, 4), (2, 8)] = Except.ok seg' ∧
      (List.lookup 100 seg'.variable_fields_avg_size_).getD (0, 0) =
        (batchRows [(2, 4), (2, 8)], batchBytes [(2, 4), (2, 8)] / batchRows [(2, 4), (2, 8)]) :=
  claim_C5 (freshVarcharSeg []) 100 [(2, 4), (2, 8)] (by decide) (by decide) (by decide)
    (by decide) (by decide) (by decide)

/-! ## Theorems: FillPrimaryKeys -/

theorem fillPK_fails (schema : Schema) (bulk_pk : Int → List Int → DataType × List PkValue)
    (results : SearchResult)
    (h : results.primary_keys_.length ≠ 0 ∨
      results.seg_offsets_.length ≠ results.distances_.length) :
    ∃ e, FillPrimaryKeys schema bulk_pk (some ()) results = Except.error e := by
  simp only [FillPrimaryKeys, Option.isNone_some, Bool.false_eq_true, if_false]
  by_cases h1 : results.seg_offsets_.length ≠ results.distances_.length
  · rw [if_pos h1]
    exact ⟨_, rfl⟩
  · rw [if_neg h1]
    have h2 : results.primary_keys_.length ≠ 0 := by tauto
    rw [if_pos h2]
    exact ⟨_, rfl⟩

theorem fillPK_ok (schema : Schema) (bulk_pk : Int → List Int → DataType × List PkValue)
    (plan : Option Unit) (results results' : SearchResult)
    (h : FillPrimaryKeys schema bulk_pk plan results = Except.ok results') :
    results'.seg_offsets_ = results.seg_offsets_ ∧
    results'.distances_ = results.distances_ ∧
    results'.primary_keys_.length = results.distances_.length ∧
    results.seg_offsets_.length = results.distances_.length := by
  simp only [FillPrimaryKeys] at h
  split at h
  · simp at h
  · split at h
    · simp at h
    · split at h
      · simp at h
      · split at h
        · simp at h
        · split at h
          · simp at h
          · rw [Except.ok.injEq] at h
            subst h
            refine ⟨rfl, rfl, by simp, by omega⟩

/-- C6: FillPrimaryKeys fails with a precondition error whenever the result's
primary-key container is non-empty or the lengths of seg_offsets_ and
distances_ differ; on success the primary-key, distance and offset containers
all have equal length, and a second invocation on the same (non-empty) result
fails. -/
theorem claim_C6 (schema : Schema) (bulk_pk : Int → List Int → DataType × List PkValue)
    (results : SearchResult) :
    ((results.primary_keys_.length ≠ 0 ∨
        results.seg_offsets_.length ≠ results.distances_.length) →
      ∃ e, FillPrimaryKeys schema bulk_pk (some ()) results = Except.error e) ∧
    (∀ results', FillPrimaryKeys schema bulk_pk (some ()) results = Except.ok results' →
      (results'.primary_keys_.length = results'.distances_.length ∧
        results'.seg_offsets_.length = results'.distances_.length) ∧
      (0 < results'.distances_.length →
        ∃ e, FillPrimaryKeys schema bulk_pk (some ()) results' = Except.error e)) := by
  refine ⟨fillPK_fails schema bulk_pk results, ?_⟩
  intro results' h
  obtain ⟨hoff, hdist, hpk, hlen⟩ := fillPK_ok schema bulk_pk (some ()) results results' h
  refine ⟨⟨by rw [hpk, hdist], by rw [hoff, hdist, hlen]⟩, ?_⟩
  intro hpos
  apply fillPK_fails schema bulk_pk results'
  left
  rw [hpk, ← hdist]
  omega

theorem claim_C6_witness :
    ∃ e, FillPrimaryKeys varcharSchema identityBulkPk (some ()) filledResult =
      Except.error e :=
  (claim_C6 varcharSchema identityBulkPk filledResult).1 (Or.inl (by decide))

/-! ## Theorems: check_metric_type -/

/-- C8: with an empty requested metric the check succeeds by defaulting to the
index's configured metric; a non-empty requested metric that differs from the
index's metric raises a metric-type-mismatch error; a non-empty matching
metric succeeds and leaves the plan unchanged. -/
theorem claim_C8 (si : SearchInfo) (index_metric : Int → String) :
    (si.metric_type_ = "" →
      check_metric_type si index_metric =
        Except.ok { si with metric_type_ := index_metric si.field_id_ }) ∧
    (si.metric_type_ ≠ "" → si.metric_type_ ≠ index_metric si.field_id_ →
      ∃ e, check_metric_type si index_metric = Except.error e) ∧
    (si.metric_type_ ≠ "" → si.metric_type_ = index_metric si.field_id_ →
      check_metric_type si index_metric = Except.ok si) := by
  refine ⟨?_, ?_, ?_⟩
  · intro h
    simp only [check_metric_type]
    rw [if_pos h, if_neg (by simp)]
  · intro h1 h2
    simp only [check_metric_type]
    rw [if_neg h1, if_pos h2]
    exact ⟨_, rfl⟩
  · intro h1 h2
    simp only [check_metric_type]
    rw [if_neg h1, if_neg (by simp [h2])]

theorem claim_C8_witness :
    check_metric_type { metric_type_ := "", field_id_ := 3 } (fun _ => "L2") =
      Except.ok { metric_type_ := "L2", field_id_ := 3 } :=
  (claim_C8 { metric_type_ := "", field_id_ := 3 } (fun _ => "L2")).1 rfl

/-- C10 counterexample: when the index's configured metric is itself the empty
string, a plan with an empty requested metric passes the check and its metric
string is still empty afterwards — "always non-empty after a successful call"
fails. -/
theorem claim_C10_cex :
    check_metric_type { metric_type_ := "", field_id_ := 0 } (fun _ => "") =
      Except.ok { metric_type_ := "", field_id_ := 0 } ∧
    ({ metric_type_ := "", field_id_ := 0 } : SearchInfo).metric_type_.length = 0 :=
  ⟨rfl, rfl⟩

/-- C10 (amended): check_metric_type writes the index's configured metric back
into a plan whose requested metric string is empty before comparing, so after
a successful call the plan's metric string always equals the index's metric
for the searched field — hence it is non-empty (and an initially-empty metric
string observably changes) whenever the index's configured metric is
non-empty. -/
theorem claim_C10 (si : SearchInfo) (index_metric : Int → String) (si' : SearchInfo)
    (h : check_metric_type si index_metric = Except.ok si') :
    si'.metric_type_ = index_metric si.field_id_ ∧
    si'.field_id_ = si.field_id_ ∧
    (index_metric si.field_id_ ≠ "" → si'.metric_type_ ≠ "") := by
  simp only [check_metric_type] at h
  by_cases he : si.metric_type_ = ""
  · rw [if_pos he, if_neg (by simp)] at h
    rw [Except.ok.injEq] at h
    subst h
    exact ⟨rfl, rfl, fun hne => hne⟩
  · rw [if_neg he] at h
    by_cases hm : si.metric_type_ ≠ index_metric si.field_id_
    · rw [if_pos hm] at h
      simp at h
    · rw [if_neg hm] at h
      rw [Except.ok.injEq] at h
      subst h
      have heq : si.metric_type_ = index_metric si.field_id_ := by tauto
      exact ⟨heq, rfl, fun _ => he⟩

theorem claim_C10_witness :
    ∃ si', check_metric_type { metric_type_ := "", field_id_ := 5 } (fun _ => "IP") =
        Except.ok si' ∧ si'.metric_type_ = "IP" := by
  refine ⟨{ metric_type_ := "IP", field_id_ := 5 }, rfl, ?_⟩
  exact (claim_C10 { metric_type_ := "", field_id_ := 5 } (fun _ => "IP")
    { metric_type_ := "IP", field_id_ := 5 } rfl).1

/-! ## Theorems: Retrieve cost budgeting and get_real_count -/

theorem get_field_avg_size_ok (seg : SegmentState) (f : Int) (hf : 0 ≤ f) :
    get_field_avg_size seg f = Except.ok (field_avg_size_val seg f) := by
  have hex : ∃ v, get_field_avg_size seg f = Except.ok v := by
    simp only [get_field_avg_size]
    rw [if_neg (by omega : ¬ f < 0)]
    by_cases hs : IsSystem f = true
    · rw [if_pos hs]
      have hsys : (f == TimestampFieldID || f == RowFieldID) = true := by
        simp only [IsSystem, Bool.or_eq_true, beq_iff_eq] at hs
        simp only [Bool.or_eq_true, beq_iff_eq]
        tauto
      rw [if_pos hsys]
      exact ⟨8, rfl⟩
    · rw [if_neg hs]
      by_cases hv : datatype_is_variable (seg.schema.field_meta f).data_type = true
      · rw [if_pos hv]
        cases hl : List.lookup f seg.variable_fields_avg_size_ with
        | none => exact ⟨0, by simp only [hl]⟩
        | some info => exact ⟨(info.2 : Int), by simp only [hl]⟩
      · rw [if_neg hv]
        exact ⟨_, rfl⟩
  obtain ⟨v, hv⟩ := hex
  simp only [field_avg_size_val, hv]

theorem retrieve_size_loop_ok (seg : SegmentState) (rows : Nat) :
    ∀ (ids : List Int) (acc : Int), (∀ f ∈ ids, 0 ≤ f) →
      retrieve_size_loop seg rows acc ids =
        Except.ok (acc + projected_output_size seg ids rows) := by
  intro ids
  induction ids with
  | nil =>
    intro acc _
    simp [retrieve_size_loop, projected_output_size]
  | cons f fs ih =>
    intro acc hids
    have hf : 0 ≤ f := hids f (List.mem_cons_self _ _)
    have hstep : retrieve_size_step seg rows acc f =
        Except.ok (acc + field_avg_size_val seg f * (rows : Int)) := by
      simp only [retrieve_size_step, get_field_avg_size_ok seg f hf]
    simp only [retrieve_size_loop, hstep]
    rw [ih (acc + field_avg_size_val seg f * (rows : Int))
      (fun x hx => hids x (List.mem_cons_of_mem _ hx))]
    have hassoc : acc + field_avg_size_val seg f * (rows : Int) +
        projected_output_size seg fs rows =
        acc + projected_output_size seg (f :: fs) rows := by
      simp [projected_output_size]
      ring
    rw [hassoc]

theorem retrieve_fill_field_no_retrieve (schema : Schema)
    (bulk_f : Int → List Int → DataArray)
    (bulk_s : SystemFieldType → List Int → List Int)
    (offsets : List Int) (results : RetrieveResultsProto) (f : Int) (msg : String) :
    retrieve_fill_field schema bulk_f bulk_s offsets results f ≠
      Except.error (SegcoreError.RetrieveError msg) := by
  intro h
  simp only [retrieve_fill_field] at h
  split at h
  · simp at h
  · split at h
    · split at h <;> simp at h
    · simp at h

theorem retrieve_fill_loop_no_retrieve (schema : Schema)
    (bulk_f : Int → List Int → DataArray)
    (bulk_s : SystemFieldType → List Int → List Int) (offsets : List Int) :
    ∀ (ids : List Int) (results : RetrieveResultsProto) (msg : String),
      retrieve_fill_loop schema bulk_f bulk_s offsets results ids ≠
        Except.error (SegcoreError.RetrieveError msg) := by
  intro ids
  induction ids with
  | nil =>
    intro results msg h
    simp [retrieve_fill_loop] at h
  | cons f fs ih =>
    intro results msg h
    simp only [retrieve_fill_loop] at h
    cases hstep : retrieve_fill_field schema bulk_f bulk_s offsets results f with
    | ok r =>
      simp only [hstep] at h
      exact ih r msg h
    | error e =>
      simp only [hstep] at h
      rw [Except.error.injEq] at h
      exact retrieve_fill_field_no_retrieve schema bulk_f bulk_s offsets results f msg
        (by rw [hstep, h])

/-- C3: Retrieve rejects with the size-exceeded error exactly when the
projected output size — the sum over requested fields of estimated average
size times matched row count — strictly exceeds the caller's limit, and never
raises that error when the sum is at most the limit.  The rejection happens
before any bulk column fetch: the error conclusion holds for every
`bulk_subscript` collaborator, i.e. the result does not depend on them. -/
theorem claim_C3 (seg : SegmentState)
    (visitor : RetrievePlan → Nat → RetrieveResultInternal)
    (bulk_f : Int → List Int → DataArray)
    (bulk_s : SystemFieldType → List Int → List Int)
    (plan : RetrievePlan) (timestamp : Nat) (limit_size : Int)
    (hids : ∀ f ∈ plan.field_ids_, 0 ≤ f) :
    (projected_output_size seg plan.field_ids_
        (visitor plan timestamp).result_offsets_.length > limit_size →
      Retrieve seg visitor bulk_f bulk_s plan timestamp limit_size =
        Except.error (SegcoreError.RetrieveError ("query results exceed the limit size"))) ∧
    (projected_output_size seg plan.field_ids_
        (visitor plan timestamp).result_offsets_.length ≤ limit_size →
      ∀ msg, Retrieve seg visitor bulk_f bulk_s plan timestamp limit_size ≠
        Except.error (SegcoreError.RetrieveError msg)) := by
  constructor
  · intro hgt
    simp only [Retrieve,
      retrieve_size_loop_ok seg (visitor plan timestamp).result_offsets_.length
        plan.field_ids_ 0 hids]
    rw [if_pos (show (0 : Int) + projected_output_size seg plan.field_ids_
        (visitor plan timestamp).result_offsets_.length > limit_size by omega)]
  · intro hle msg
    simp only [Retrieve,
      retrieve_size_loop_ok seg (visitor plan timestamp).result_offsets_.length
        plan.field_ids_ 0 hids]
    rw [if_neg (show ¬ ((0 : Int) + projected_output_size seg plan.field_ids_
        (visitor plan timestamp).result_offsets_.length > limit_size) by omega)]
    by_cases hc : plan.plan_node_.is_count_ = true
    · rw [if_pos hc]
      split
      · simp
      · simp
    · rw [if_neg hc]
      exact retrieve_fill_loop_no_retrieve plan.schema_ bulk_f bulk_s
        (visitor plan timestamp).result_offsets_ plan.field_ids_
        { offset := (visitor plan timestamp).result_offsets_, fields_data := [],
          ids_int := [], ids_str := [] } msg

theorem claim_C3_witness :
    Retrieve (freshInt64Seg []) twoRowVisitor emptyBulkField emptyBulkSystem
      { schema_ := int64Schema, plan_node_ := { is_count_ := false }, field_ids_ := [100] }
      0 10 =
      Except.error (SegcoreError.RetrieveError ("query results exceed the limit size")) :=
  (claim_C3 (freshInt64Seg []) twoRowVisitor emptyBulkField emptyBulkSystem
    { schema_ := int64Schema, plan_node_ := { is_count_ := false }, field_ids_ := [100] }
    0 10 (by decide)).1 (by decide)

/-- C4: get_real_count builds a count-only plan with no requested fields,
invokes Retrieve with the latest possible snapshot and an unbounded budget,
and unwraps the single scalar of the single one-row column; with the
spec-modelled visitor its value equals the total number of inserted rows (all
visible at the maximal timestamp), and on an empty segment the count-only
Retrieve yields one column with one row holding 0. -/
theorem claim_C4 (seg : SegmentState)
    (bulk_f : Int → List Int → DataArray)
    (bulk_s : SystemFieldType → List Int → List Int)
    (hts : ∀ t ∈ seg.timestamps, t < 2 ^ 64) :
    get_real_count seg (spec_visitor seg) bulk_f bulk_s =
      Except.ok (seg.timestamps.length : Int) ∧
    (seg.timestamps = [] →
      Retrieve seg (spec_visitor seg) bulk_f bulk_s (count_plan seg) MAX_TIMESTAMP INT64_MAX =
        Except.ok { offset := [], fields_data := [countColumn 0], ids_int := [], ids_str := [] }) := by
  have h264 : (2 : Nat) ^ 64 = 18446744073709551616 := by norm_num
  have hcount : visibleCount seg.timestamps MAX_TIMESTAMP = seg.timestamps.length := by
    unfold visibleCount
    rw [List.countP_eq_length]
    intro t ht
    have h1 := hts t ht
    simp only [decide_eq_true_eq]
    unfold MAX_TIMESTAMP
    rw [h264] at h1 ⊢
    omega
  have hret : Retrieve seg (spec_visitor seg) bulk_f bulk_s (count_plan seg)
      MAX_TIMESTAMP INT64_MAX =
      Except.ok { offset := [], fields_data := [countColumn (seg.timestamps.length : Int)], ids_int := [], ids_str := [] } := by
    simp only [Retrieve, count_plan, spec_visitor, retrieve_size_loop, hcount]
    rw [if_neg (by decide : ¬ ((0 : Int) > INT64_MAX))]
    rfl
  constructor
  · simp only [get_real_count, hret, countColumn]
  · intro hempty
    rw [hempty] at hret
    simpa using hret

theorem claim_C4_witness :
    get_real_count (freshInt64Seg [3, 7]) (spec_visitor (freshInt64Seg [3, 7]))
      emptyBulkField emptyBulkSystem =
      Except.ok ((freshInt64Seg [3, 7]).timestamps.length : Int) :=
  (claim_C4 (freshInt64Seg [3, 7]) emptyBulkField emptyBulkSystem (by decide)).1

end milvus.segcore
